import Mathlib

/-!
Verification of the `cubes` pipeline-transformation engine
(`query_cube.js`: `checkCompatibility`, `createPipeline`, `queryCube`;
`create_cube.js`: `createCube`) against its natural-language specification.

Pipelines are JSON-like trees.  JavaScript objects are modelled as
insertion-ordered association lists (JavaScript objects keep insertion
order for string keys and cannot hold duplicate keys; all objects built
here are duplicate-free).  Numbers are modelled as exact rationals.  The model
covers JSON values only: the source deep-clones the pipeline through
`JSON.parse(JSON.stringify(...))` before inspecting it, so non-JSON
values (`undefined`, functions) cannot reach the analysed structure.
-/

/-- Exact rational numbers with kernel-computable arithmetic: a
normalized numerator/denominator pair over the integer primitives
(Mathlib's `ℚ` operations do not reduce definitionally, which would
block evaluating the model on concrete inputs). -/
structure Q0 where
  n : Int
  d : Nat
  deriving DecidableEq, Repr

/-- Embed an integer. -/
def qint (i : Int) : Q0 := ⟨i, 1⟩

/-- Normalize a fraction with a positive denominator. -/
def q0norm (n : Int) (d : Nat) : Q0 :=
  let g := n.gcd (Int.ofNat d)
  if g = 0 then ⟨0, 1⟩ else ⟨n / (g : Int), d / g⟩

def q0add (a b : Q0) : Q0 :=
  q0norm (a.n * (b.d : Int) + b.n * (a.d : Int)) (a.d * b.d)

/-- Exact division (the caller rules out a zero divisor). -/
def q0div (a b : Q0) : Q0 :=
  let m := a.n * (b.d : Int)
  let k := (a.d : Int) * b.n
  q0norm (if k < 0 then -m else m) k.natAbs

def q0le (a b : Q0) : Bool := a.n * (b.d : Int) ≤ b.n * (a.d : Int)

def q0min (a b : Q0) : Q0 := if q0le a b then a else b

def q0max (a b : Q0) : Q0 := if q0le a b then b else a

inductive JVal where
  | null : JVal
  | bool : Bool → JVal
  | num : Q0 → JVal
  | str : String → JVal
  | arr : List JVal → JVal
  | obj : List (String × JVal) → JVal
  deriving Repr

abbrev JsObj := List (String × JVal)

/-- Errors thrown by `checkCompatibility`: the two `Error`s it constructs
itself, and the `TypeError`s raised by the JavaScript runtime (e.g.
`Object.keys(undefined)`, `null.slice`). -/
inductive JsErr where
  | notAGroupPipeline : JsErr
  | unsupportedOperator : JsErr
  | typeError : JsErr
  deriving DecidableEq, Repr

/-- JavaScript property assignment `o[k] = v`: updates the entry in place
when the key exists, otherwise appends it. -/
def oset (o : JsObj) (k : String) (v : JVal) : JsObj :=
  if o.any (fun kv => kv.1 = k) then
    o.map (fun kv => if kv.1 = k then (k, v) else kv)
  else o ++ [(k, v)]

/-- JavaScript object spread `{...base, ...ext}`. -/
def ospread (base ext : JsObj) : JsObj :=
  ext.foldl (fun acc kv => oset acc kv.1 kv.2) base

/-- JavaScript property read `o[k]` (`none` models `undefined`). -/
def getProp (v : JVal) (k : String) : Option JVal :=
  match v with
  | .obj l => (l.find? (fun kv => kv.1 = k)).map (fun kv => kv.2)
  | _ => none

/-- Lodash `toPairs` / the own enumerable string-keyed entries of a value:
entries of an object, indexed elements of an array, indexed characters of
a string, nothing for other primitives. -/
def ownPairs : JVal → List (String × JVal)
  | .obj l => l
  | .arr es => es.enum.map (fun p => (toString p.1, p.2))
  | .str s => s.data.enum.map (fun p => (toString p.1, JVal.str (String.mk [p.2])))
  | _ => []

/-- `Object.keys(v)[0]`; throws a `TypeError` on `null` (and the caller
handles `undefined`, which also throws). -/
def objectKeysFirst : JVal → Except JsErr (Option String)
  | .null => .error .typeError
  | v => .ok ((ownPairs v).head?.map (fun kv => kv.1))

/-- `delete group._id`: removes the `_id` entry of an object; a silent
no-op on primitives and (JSON-cloned) arrays. -/
def eraseId : JVal → JVal
  | .obj l => .obj (l.filter (fun kv => kv.1 ≠ "_id"))
  | v => v

def supportedOps : List String := ["$sum", "$min", "$max", "$avg"]

/-- `["$sum","$min","$max","$avg"].includes(op)` where `op` is
`Object.keys(val)[0]` (`none` models `undefined`, never included). -/
def isSupportedOp : Option String → Bool
  | some s => supportedOps.contains s
  | none => false

/-- `values(group).every((val) => ... includes(Object.keys(val)[0]))`:
short-circuiting scan; a `null` value makes `Object.keys` throw. -/
def checkOps : List JVal → Except JsErr Bool
  | [] => .ok true
  | v :: rest =>
    match objectKeysFirst v with
    | .error e => .error e
    | .ok k => if isSupportedOp k then checkOps rest else .ok false

/-- One step of the tuple construction
`toPairs(group).map(([field, val]) => ...)`:
`op = Object.keys(val)[0].slice(1)`, `meas = values(val)[0]`, the
count special case `isObject(meas) || meas === 1`, then
`meas = meas.slice(1)` (which throws a `TypeError` when `meas` is a
number other than 1, a boolean, or `null`). -/
def extractTuple (fv : String × JVal) : Except JsErr (String × String × String) :=
  match objectKeysFirst fv.2 with
  | .error e => .error e
  | .ok none => .error .typeError
  | .ok (some k) =>
    match ((ownPairs fv.2).head?.map (fun kv => kv.2) : Option JVal) with
    | some (.obj _) => .ok (fv.1, "count", "count")
    | some (.arr _) => .ok (fv.1, "count", "count")
    | some (.num q) =>
      if q = qint 1 then .ok (fv.1, "count", "count") else .error .typeError
    | some (.str s) => .ok (fv.1, k.drop 1, s.drop 1)
    | some .null => .error .typeError
    | some (.bool _) => .error .typeError
    | none => .error .typeError

/-- `toPairs(group).map(...)`: builds the tuples in field order; the
first thrown `TypeError` propagates. -/
def extractTuples : List (String × JVal) → Except JsErr (List (String × String × String))
  | [] => .ok []
  | fv :: rest =>
    match extractTuple fv, extractTuples rest with
    | .ok t, .ok ts => .ok (t :: ts)
    | .error e, _ => .error e
    | _, .error e => .error e

/-- The body of `checkCompatibility` after the `$group` head check and the
`delete group._id` on the clone: the operator validity scan followed by
tuple extraction. -/
def scanGroupBody (g : JVal) : Except JsErr (List (String × String × String)) :=
  match checkOps ((ownPairs g).map (fun kv => kv.2)) with
  | .error e => .error e
  | .ok false => .error .unsupportedOperator
  | .ok true => extractTuples (ownPairs g)

/-- `checkCompatibility(ppl)` from `query_cube.js`.  An empty pipeline
makes `Object.keys(ppl[0])` throw a `TypeError`.  The
`JSON.parse(JSON.stringify(ppl))` clone is the identity on the JSON value
(its aliasing behaviour is analysed separately in the heap model below),
so `delete group._id` acts on the value via `eraseId`. -/
def checkCompatibility (ppl : List JVal) : Except JsErr (List (String × String × String)) :=
  match ppl with
  | [] => .error .typeError
  | stage0 :: _ =>
    match objectKeysFirst stage0 with
    | .error e => .error e
    | .ok k0 =>
      if k0 = some "$group" then
        scanGroupBody (eraseId ((getProp stage0 "$group").getD .null))
      else .error .notAGroupPipeline

/-- One iteration of `tuples.forEach(([f, a, m]) => ...)` in
`createPipeline`, threading the `measGroup`, `measSet`, `measProject`
objects. -/
def rewriteStep (st : JsObj × JsObj × JsObj) (t : String × String × String) :
    JsObj × JsObj × JsObj :=
  let f := t.1
  let a := t.2.1
  let m := t.2.2
  let measProject := oset st.2.2 f (JVal.str ("$" ++ m ++ "_" ++ a))
  if a = "count" then
    (oset st.1 "count" (JVal.obj [("$sum", JVal.str "$count")]),
     st.2.1,
     oset measProject f (JVal.str "$count"))
  else if a = "avg" then
    (oset (oset st.1 (m ++ "_sum") (JVal.obj [("$sum", JVal.str ("$" ++ m ++ ".sum"))]))
       "count" (JVal.obj [("$sum", JVal.str "$count")]),
     oset st.2.1 (m ++ "_avg")
       (JVal.obj [("$divide", JVal.arr [JVal.str ("$" ++ m ++ "_sum"), JVal.str "$count"])]),
     measProject)
  else
    (oset st.1 (m ++ "_" ++ a) (JVal.obj [("$" ++ a, JVal.str ("$" ++ m ++ "." ++ a))]),
     st.2.1,
     measProject)

/-- `createPipeline(ppl, tuples)` from `query_cube.js`.  (When the
original grouping stage has no `_id` property, JavaScript would carry
`undefined`; the pipelines under study always carry `_id`, and that
corner is modelled as `null`.) -/
def createPipeline (ppl : List JVal) (tuples : List (String × String × String)) : List JVal :=
  let st := tuples.foldl rewriteStep ([], [], [("_id", JVal.num (qint 1))])
  let oldGroup := (getProp (ppl.head?.getD JVal.null) "$group").getD JVal.null
  let group := JVal.obj [("$group", JVal.obj (ospread [("_id", (getProp oldGroup "_id").getD JVal.null)] st.1))]
  let setStage := JVal.obj [("$set", JVal.obj st.2.1)]
  let project := JVal.obj [("$project", JVal.obj st.2.2)]
  group :: ((if st.2.1.isEmpty then [] else [setStage]) ++ [project] ++ ppl.drop 1)

/-- `queryCube(pipeline)` from `query_cube.js`. -/
def queryCube (ppl : List JVal) : Except JsErr (List JVal) :=
  (checkCompatibility ppl).map (fun tuples => createPipeline ppl tuples)

/-- `d.replace(".", "_")` with a string pattern: JavaScript replaces only
the first occurrence. -/
def jsReplaceDotChars : List Char → List Char
  | [] => []
  | c :: cs => if c = '.' then '_' :: cs else c :: jsReplaceDotChars cs

def jsReplaceDot (s : String) : String := String.mk (jsReplaceDotChars s.data)

/-- `mapMeasure` from `create_cube.js`. -/
def mapMeasure (m : String) : JsObj :=
  [(m ++ "_sum", JVal.obj [("$sum", JVal.str ("$" ++ m))]),
   (m ++ "_min", JVal.obj [("$min", JVal.str ("$" ++ m))]),
   (m ++ "_max", JVal.obj [("$max", JVal.str ("$" ++ m))]),
   (m ++ "_count", JVal.obj [("$sum", JVal.obj [("$cond",
      JVal.obj [("if", JVal.str ("$" ++ m)), ("then", JVal.num (qint 1)), ("else", JVal.num (qint 0))])])])]

/-- `nestedMeasure` from `create_cube.js`. -/
def nestedMeasure (m : String) : JsObj :=
  [(m, JVal.obj [("sum", JVal.str ("$" ++ m ++ "_sum")),
                 ("min", JVal.str ("$" ++ m ++ "_min")),
                 ("max", JVal.str ("$" ++ m ++ "_max")),
                 ("count", JVal.str ("$" ++ m ++ "_count"))])]

/-- Lodash `zipObject(keys, vals)` (pairing positionally; the call sites
always pass lists of equal length). -/
def zipObject (ks : List String) (vs : List JVal) : JsObj :=
  (ks.zip vs).foldl (fun acc kv => oset acc kv.1 kv.2) []

/-- `createCube(dimensions, measures, outCollection)` from
`create_cube.js`. -/
def createCube (dimensions measures : List String) (outCollection : String) : List JVal :=
  let dashedDimensions := dimensions.map jsReplaceDot
  let dollaredDimensions := dimensions.map (fun d => JVal.str ("$" ++ d))
  let mappedMeasures := measures.foldl (fun acc m => ospread acc (mapMeasure m)) []
  let nestedMeasures := measures.foldl (fun acc m => ospread acc (nestedMeasure m)) []
  let idDimensions := dashedDimensions.map (fun d => JVal.str ("$_id." ++ d))
  let unwrappedDimensions := zipObject dimensions idDimensions
  [JVal.obj [("$group", JVal.obj (ospread
      [("_id", JVal.obj (zipObject dashedDimensions dollaredDimensions)),
       ("count", JVal.obj [("$sum", JVal.num (qint 1))])]
      mappedMeasures))],
   JVal.obj [("$project", JVal.obj (ospread (ospread
      [("_id", JVal.num (qint 0)), ("count", JVal.num (qint 1))]
      nestedMeasures) unwrappedDimensions))],
   JVal.obj [("$out", JVal.str outCollection)]]

/-!
Reference model of the external aggregation engine.

The spec treats the engine that runs these pipelines as an external
collaborator (§1, §6); the fragment modelled here is the documented
behaviour of the MongoDB aggregation framework on JSON documents with
numeric measures, exactly the fragment exercised by the pipelines this
system produces: field paths, literals, object-literal expressions,
`$cond` in its canonical `if`/`then`/`else` field order — the only form
this system produces — (with truthiness of `null`/missing/`0`/`false` as
falsy),
`$divide` (null on null/missing operands, an error on a zero divisor),
the `$group` accumulators `$sum`/`$min`/`$max`/`$avg` (which ignore
non-numeric values; `$min`/`$max`/`$avg` of no values is `null`),
`$project` inclusion/exclusion/computed fields with `_id` kept by
default, `$set` as evaluate-then-merge, and `$out` as the identity on
the result set (materialization is the collaborator's concern).
-/

mutual

def jeqB : JVal → JVal → Bool
  | .null, .null => true
  | .bool a, .bool b => a == b
  | .num a, .num b => a == b
  | .str a, .str b => a == b
  | .arr a, .arr b => jeqArr a b
  | .obj a, .obj b => jeqObj a b
  | _, _ => false

def jeqArr : List JVal → List JVal → Bool
  | [], [] => true
  | a :: as, b :: bs => jeqB a b && jeqArr as bs
  | _, _ => false

def jeqObj : List (String × JVal) → List (String × JVal) → Bool
  | [], [] => true
  | a :: as, b :: bs => (a.1 == b.1 && jeqB a.2 b.2) && jeqObj as bs
  | _, _ => false

end

/-- Navigate a (dot-split) field path inside a document. -/
def pathLookup : JVal → List String → Option JVal
  | v, [] => some v
  | v, k :: ks =>
    match getProp v k with
    | some w => pathLookup w ks
    | none => none

/-- Split a path string on `'.'` (structurally, over the characters). -/
def splitPathAux : List Char → List Char → List String
  | [], acc => [String.mk acc.reverse]
  | c :: cs, acc =>
    if c = '.' then String.mk acc.reverse :: splitPathAux cs []
    else splitPathAux cs (c :: acc)

def splitPath (s : String) : List String := splitPathAux s.data []

/-- Does the string begin with the `$` field-reference marker? -/
def startsWithDollar (s : String) : Bool :=
  match s.data with
  | c :: _ => c = '$'
  | [] => false

/-- Truthiness of an evaluated expression (`none` models a missing
field): `null`, missing, `false` and `0` are falsy. -/
def truthy : Option JVal → Bool
  | none => false
  | some .null => false
  | some (.bool b) => b
  | some (.num q) => q.n ≠ 0
  | some _ => true

mutual

/-- Evaluate an aggregation expression against one document.  `none`
models the `missing` value; `Except.error` models a runtime
aggregation error. -/
def evalExpr (doc : JVal) : JVal → Except String (Option JVal)
  | .null => .ok (some .null)
  | .bool b => .ok (some (.bool b))
  | .num q => .ok (some (.num q))
  | .str s =>
    if startsWithDollar s then .ok (pathLookup doc (splitPath (s.drop 1)))
    else .ok (some (.str s))
  | .arr es =>
    match evalElems doc es with
    | .error e => .error e
    | .ok vs => .ok (some (.arr (vs.map (fun o => o.getD .null))))
  | .obj l =>
    if (l.head?.map (fun kv => startsWithDollar kv.1)).getD false then
      match l with
      | [("$cond", .obj [("if", ie), ("then", te), ("else", ee)])] =>
        match evalExpr doc ie with
        | .error e => .error e
        | .ok c => if truthy c then evalExpr doc te else evalExpr doc ee
      | [("$divide", .arr [e1, e2])] =>
        match evalExpr doc e1, evalExpr doc e2 with
        | .error e, _ => .error e
        | _, .error e => .error e
        | .ok a, .ok b =>
          match a, b with
          | some (.num x), some (.num y) =>
            if y.n = 0 then .error "cannot divide by zero" else .ok (some (.num (q0div x y)))
          | none, _ => .ok (some .null)
          | some .null, _ => .ok (some .null)
          | _, none => .ok (some .null)
          | _, some .null => .ok (some .null)
          | _, _ => .error "$divide only supports numeric types"
      | _ => .error "unrecognized expression operator"
    else
      match evalFields doc l with
      | .error e => .error e
      | .ok fs => .ok (some (.obj fs))

def evalElems (doc : JVal) : List JVal → Except String (List (Option JVal))
  | [] => .ok []
  | e :: es =>
    match evalExpr doc e with
    | .error err => .error err
    | .ok v =>
      match evalElems doc es with
      | .error err => .error err
      | .ok vs => .ok (v :: vs)

def evalFields (doc : JVal) : List (String × JVal) → Except String (List (String × JVal))
  | [] => .ok []
  | (k, e) :: fs =>
    match evalExpr doc e with
    | .error err => .error err
    | .ok v =>
      match evalFields doc fs with
      | .error err => .error err
      | .ok rest => .ok (match v with
        | some w => (k, w) :: rest
        | none => rest)

end

/-- The numeric values among a list of evaluated expressions; the
accumulators ignore everything else (null, missing, non-numeric). -/
def numsOf : List (Option JVal) → List Q0
  | [] => []
  | some (.num q) :: rest => q :: numsOf rest
  | _ :: rest => numsOf rest

/-- Apply one `$group` accumulator to the documents of a partition. -/
def applyAccum (docs : List JVal) (acc : JVal) : Except String JVal :=
  match acc with
  | .obj [(op, arg)] =>
    match docs.mapM (fun d => evalExpr d arg) with
    | .error e => .error e
    | .ok vals =>
      let ns := numsOf vals
      if op = "$sum" then .ok (.num (ns.foldl q0add (qint 0)))
      else if op = "$min" then
        .ok (match ns with | [] => .null | h :: t => .num (t.foldl q0min h))
      else if op = "$max" then
        .ok (match ns with | [] => .null | h :: t => .num (t.foldl q0max h))
      else if op = "$avg" then
        .ok (match ns with
          | [] => .null
          | h :: t => .num (q0div ((h :: t).foldl q0add (qint 0)) (qint ((h :: t).length))))
      else .error "unknown group accumulator"
  | _ => .error "malformed group accumulator"

/-- First-occurrence-order deduplication of the grouping keys. -/
def dedupKeys (ks : List JVal) : List JVal :=
  ks.foldl (fun acc k => if acc.any (fun x => jeqB x k) then acc else acc ++ [k]) []

/-- `$group`: partition by the evaluated `_id` expression (a missing key
groups as `null`), then apply every accumulator to each partition; the
output carries `_id` first and the accumulator fields in stage order. -/
def evalGroup (docs : List JVal) (body : List (String × JVal)) : Except String (List JVal) :=
  let idExpr := ((body.find? (fun kv => kv.1 = "_id")).map (fun kv => kv.2)).getD .null
  let accFields := body.filter (fun kv => kv.1 ≠ "_id")
  match docs.mapM (fun d => evalExpr d idExpr) with
  | .error e => .error e
  | .ok keysE =>
    let keys := keysE.map (fun o => o.getD .null)
    (dedupKeys keys).mapM (fun k =>
      let part := ((docs.zip keys).filter (fun p => jeqB p.2 k)).map (fun p => p.1)
      match accFields.mapM (fun kv => (applyAccum part kv.2).map (fun v => (kv.1, v))) with
      | .error e => .error e
      | .ok fields => .ok (JVal.obj (("_id", k) :: fields)))

/-- `$project` on one document: `0`/`false` excludes, `1`/`true`/other
numbers copy the field when present, any other value is a computed
expression (omitted when missing); `_id` is kept by default when the
specification does not mention it. -/
def evalProject (doc : JVal) (spec : List (String × JVal)) : Except String JVal :=
  let step := fun (acc : Except String (List (String × JVal))) (kv : String × JVal) =>
    match acc with
    | .error e => .error e
    | .ok fs =>
      match kv.2 with
      | .num q =>
        if q.n = 0 then .ok fs
        else .ok (match getProp doc kv.1 with
          | some w => fs ++ [(kv.1, w)]
          | none => fs)
      | .bool b =>
        if b then .ok (match getProp doc kv.1 with
          | some w => fs ++ [(kv.1, w)]
          | none => fs)
        else .ok fs
      | e =>
        match evalExpr doc e with
        | .error err => .error err
        | .ok (some w) => .ok (fs ++ [(kv.1, w)])
        | .ok none => .ok fs
  match spec.foldl step (.ok []) with
  | .error e => .error e
  | .ok fs =>
    if spec.any (fun kv => kv.1 = "_id") then .ok (.obj fs)
    else .ok (.obj ((match getProp doc "_id" with
      | some w => [("_id", w)]
      | none => []) ++ fs))

/-- `$set` (`$addFields`) on one document: every expression is evaluated
against the input document, then merged (replace-or-append); a missing
result leaves the document unchanged. -/
def evalSet (doc : JVal) (spec : List (String × JVal)) : Except String JVal :=
  let fields := match doc with | .obj l => l | _ => []
  let step := fun (acc : Except String (List (String × JVal))) (kv : String × JVal) =>
    match acc with
    | .error e => .error e
    | .ok fs =>
      match evalExpr doc kv.2 with
      | .error err => .error err
      | .ok (some w) => .ok (oset fs kv.1 w)
      | .ok none => .ok fs
  match spec.foldl step (.ok fields) with
  | .error e => .error e
  | .ok fs => .ok (.obj fs)

/-- Run one pipeline stage over the current result set. -/
def evalStage (docs : List JVal) (stage : JVal) : Except String (List JVal) :=
  match stage with
  | .obj [("$group", .obj body)] => evalGroup docs body
  | .obj [("$project", .obj spec)] => docs.mapM (fun d => evalProject d spec)
  | .obj [("$set", .obj spec)] => docs.mapM (fun d => evalSet d spec)
  | .obj [("$out", _)] => .ok docs
  | _ => .error "unsupported stage"

/-- Run a pipeline over a collection of documents. -/
def aggregate (docs : List JVal) (ppl : List JVal) : Except String (List JVal) :=
  ppl.foldlM evalStage docs

/-!
Heap model of `checkCompatibility`'s aliasing behaviour.

The pure model above treats `JSON.parse(JSON.stringify(ppl))` as the
identity on values; this section models it as a real allocation so that
`delete group._id` (line 26 of `query_cube.js`) is a genuine mutation of
a heap cell, and the caller-invisibility of that mutation becomes a
theorem rather than a modelling assumption.  Objects and arrays live in
a heap of cells addressed by allocation order; a structure is observed
by decoding it (with fuel) into a `JVal` tree.
-/

inductive HVal where
  | null : HVal
  | bool : Bool → HVal
  | num : Q0 → HVal
  | str : String → HVal
  | ref : Nat → HVal
  deriving DecidableEq, Repr

inductive HCell where
  | obj : List (String × HVal) → HCell
  | arr : List HVal → HCell
  deriving DecidableEq, Repr

abbrev Heap := List HCell

mutual

/-- Observe a heap value as a JSON tree (`JSON.stringify`); runs out of
fuel only on cyclic structures, on which `stringify` throws. -/
def decodeVal (h : Heap) : Nat → HVal → Option JVal
  | _, .null => some .null
  | _, .bool b => some (.bool b)
  | _, .num q => some (.num q)
  | _, .str s => some (.str s)
  | 0, .ref _ => none
  | fuel + 1, .ref a =>
    match h[a]? with
    | some (.obj fs) => (decodeFields h fuel fs).map JVal.obj
    | some (.arr es) => (decodeElems h fuel es).map JVal.arr
    | none => none
termination_by fuel v => (fuel, sizeOf v)

def decodeFields (h : Heap) : Nat → List (String × HVal) → Option (List (String × JVal))
  | _, [] => some []
  | fuel, (k, v) :: fs =>
    match decodeVal h fuel v, decodeFields h fuel fs with
    | some j, some rest => some ((k, j) :: rest)
    | _, _ => none
termination_by fuel fs => (fuel, sizeOf fs)

def decodeElems (h : Heap) : Nat → List HVal → Option (List JVal)
  | _, [] => some []
  | fuel, v :: vs =>
    match decodeVal h fuel v, decodeElems h fuel vs with
    | some j, some rest => some (j :: rest)
    | _, _ => none
termination_by fuel vs => (fuel, sizeOf vs)

end

mutual

/-- Materialize a JSON tree in the heap at fresh addresses
(`JSON.parse`): every composite node becomes a newly appended cell. -/
def buildVal (h : Heap) : JVal → Heap × HVal
  | .null => (h, .null)
  | .bool b => (h, .bool b)
  | .num q => (h, .num q)
  | .str s => (h, .str s)
  | .arr es =>
    let p := buildElems h es
    (p.1 ++ [HCell.arr p.2], .ref p.1.length)
  | .obj fs =>
    let p := buildFields h fs
    (p.1 ++ [HCell.obj p.2], .ref p.1.length)
termination_by j => sizeOf j

def buildElems (h : Heap) : List JVal → Heap × List HVal
  | [] => (h, [])
  | v :: vs =>
    let p := buildVal h v
    let q := buildElems p.1 vs
    (q.1, p.2 :: q.2)
termination_by js => sizeOf js

def buildFields (h : Heap) : List (String × JVal) → Heap × List (String × HVal)
  | [] => (h, [])
  | (k, v) :: fs =>
    let p := buildVal h v
    let q := buildFields p.1 fs
    (q.1, (k, p.2) :: q.2)
termination_by fs => sizeOf fs

end

/-- `ppl[0]` on a heap value (`none` models `undefined`). -/
def hIndex0 (h : Heap) : HVal → Option HVal
  | .ref a =>
    match h[a]? with
    | some (.arr es) => es.head?
    | some (.obj fs) => (fs.find? (fun kv => kv.1 = "0")).map (fun kv => kv.2)
    | none => none
  | .str s => (s.data.head?).map (fun c => HVal.str (String.mk [c]))
  | _ => none

/-- `Object.keys(v)[0]` on a heap value; the `none` argument models
`undefined`, which (like `null`) makes `Object.keys` throw. -/
def hKeysFirst (h : Heap) : Option HVal → Except JsErr (Option String)
  | none => .error .typeError
  | some .null => .error .typeError
  | some (.ref a) =>
    match h[a]? with
    | some (.obj fs) => .ok (fs.head?.map (fun kv => kv.1))
    | some (.arr es) => .ok (if es.isEmpty then none else some "0")
    | none => .ok none
  | some (.str s) => .ok (if s.isEmpty then none else some "0")
  | some _ => .ok none

/-- Property read `v[k]` on a heap value. -/
def hProp (h : Heap) (v : HVal) (k : String) : Option HVal :=
  match v with
  | .ref a =>
    match h[a]? with
    | some (.obj fs) => (fs.find? (fun kv => kv.1 = k)).map (fun kv => kv.2)
    | _ => none
  | _ => none

/-- `delete group._id`: mutates the group's cell in the heap; a no-op
when the group is not an object reference. -/
def heapDeleteId (h : Heap) (g : Option HVal) : Heap :=
  match g with
  | some (.ref a) =>
    match h[a]? with
    | some (.obj fs) => h.set a (HCell.obj (fs.filter (fun kv => kv.1 ≠ "_id")))
    | _ => h
  | _ => h

/-- `checkCompatibility` in the heap model: the `$group` head check reads
the live heap; the clone decodes the caller's pipeline (`stringify`,
which throws on cycles — the out-of-fuel branch) and rebuilds it at
fresh addresses (`parse`); `delete group._id` then mutates the clone's
group cell; the remaining scan only reads, so it is computed by decoding
the mutated clone's group and reusing the pure scan.  Returns the final
heap together with the result. -/
def checkCompatibilityH (h : Heap) (pplRef : HVal) :
    Heap × Except JsErr (List (String × String × String)) :=
  match hKeysFirst h (hIndex0 h pplRef) with
  | .error e => (h, .error e)
  | .ok k0 =>
    if k0 = some "$group" then
      match decodeVal h (h.length + 1) pplRef with
      | none => (h, .error .typeError)
      | some j =>
        let built := buildVal h j
        let groupRef := (hIndex0 built.1 built.2).bind (fun st => hProp built.1 st "$group")
        let h3 := heapDeleteId built.1 groupRef
        match groupRef with
        | none => (h3, .error .typeError)
        | some g =>
          match decodeVal h3 (h3.length + 1) g with
          | none => (h3, .error .typeError)
          | some gJ => (h3, scanGroupBody gJ)
    else (h, .error .notAGroupPipeline)

/-- References of a value point at or above address `n`. -/
def HVal.refGE (n : Nat) : HVal → Prop
  | .ref a => n ≤ a
  | _ => True

/-- References contained in a cell point at or above address `n`. -/
def HCell.refsGE (n : Nat) : HCell → Prop
  | .obj fs => ∀ kv ∈ fs, HVal.refGE n kv.2
  | .arr es => ∀ v ∈ es, HVal.refGE n v

theorem HVal.refGE_mono {m n : Nat} (hmn : m ≤ n) : ∀ v, HVal.refGE n v → HVal.refGE m v := by
  intro v
  cases v <;> simp [HVal.refGE] <;> omega

theorem HCell.refsGE_mono {m n : Nat} (hmn : m ≤ n) : ∀ c, HCell.refsGE n c → HCell.refsGE m c := by
  intro c
  cases c with
  | obj fs => exact fun hc kv hm => HVal.refGE_mono hmn _ (hc kv hm)
  | arr es => exact fun hc v hm => HVal.refGE_mono hmn _ (hc v hm)

mutual

theorem buildVal_spec (h : Heap) (j : JVal) :
    (∃ ext, (buildVal h j).1 = h ++ ext ∧ ∀ c ∈ ext, HCell.refsGE h.length c) ∧
    HVal.refGE h.length (buildVal h j).2 := by
  cases j with
  | null => exact ⟨⟨[], by simp [buildVal], by simp⟩, by simp [buildVal, HVal.refGE]⟩
  | bool b => exact ⟨⟨[], by simp [buildVal], by simp⟩, by simp [buildVal, HVal.refGE]⟩
  | num q => exact ⟨⟨[], by simp [buildVal], by simp⟩, by simp [buildVal, HVal.refGE]⟩
  | str s => exact ⟨⟨[], by simp [buildVal], by simp⟩, by simp [buildVal, HVal.refGE]⟩
  | arr es =>
    obtain ⟨⟨ext1, he1, hc1⟩, hv1⟩ := buildElems_spec h es
    refine ⟨⟨ext1 ++ [HCell.arr (buildElems h es).2], ?_, ?_⟩, ?_⟩
    · simp [buildVal, he1]
    · intro c hc
      rcases List.mem_append.mp hc with hl | hr
      · exact hc1 c hl
      · rcases List.mem_singleton.mp hr with rfl
        exact hv1
    · simp only [buildVal, HVal.refGE, he1, List.length_append]
      omega
  | obj fs =>
    obtain ⟨⟨ext1, he1, hc1⟩, hv1⟩ := buildFields_spec h fs
    refine ⟨⟨ext1 ++ [HCell.obj (buildFields h fs).2], ?_, ?_⟩, ?_⟩
    · simp [buildVal, he1]
    · intro c hc
      rcases List.mem_append.mp hc with hl | hr
      · exact hc1 c hl
      · rcases List.mem_singleton.mp hr with rfl
        exact hv1
    · simp only [buildVal, HVal.refGE, he1, List.length_append]
      omega
termination_by sizeOf j

theorem buildElems_spec (h : Heap) (js : List JVal) :
    (∃ ext, (buildElems h js).1 = h ++ ext ∧ ∀ c ∈ ext, HCell.refsGE h.length c) ∧
    ∀ v ∈ (buildElems h js).2, HVal.refGE h.length v := by
  cases js with
  | nil => exact ⟨⟨[], by simp [buildElems], by simp⟩, by simp [buildElems]⟩
  | cons v vs =>
    obtain ⟨⟨e1, he1, hc1⟩, hv1⟩ := buildVal_spec h v
    obtain ⟨⟨e2, he2, hc2⟩, hv2⟩ := buildElems_spec (buildVal h v).1 vs
    have hlen : h.length ≤ (buildVal h v).1.length := by
      simp [he1]
    refine ⟨⟨e1 ++ e2, ?_, ?_⟩, ?_⟩
    · simp only [buildElems]
      rw [he2, he1, List.append_assoc]
    · intro c hc
      rcases List.mem_append.mp hc with hl | hr
      · exact hc1 c hl
      · exact HCell.refsGE_mono hlen c (hc2 c hr)
    · intro w hw
      simp only [buildElems, List.mem_cons] at hw
      rcases hw with rfl | hw
      · exact hv1
      · exact HVal.refGE_mono hlen w (hv2 w hw)
termination_by sizeOf js

theorem buildFields_spec (h : Heap) (fs : List (String × JVal)) :
    (∃ ext, (buildFields h fs).1 = h ++ ext ∧ ∀ c ∈ ext, HCell.refsGE h.length c) ∧
    ∀ kv ∈ (buildFields h fs).2, HVal.refGE h.length kv.2 := by
  cases fs with
  | nil => exact ⟨⟨[], by simp [buildFields], by simp⟩, by simp [buildFields]⟩
  | cons kv fs' =>
    obtain ⟨k, v⟩ := kv
    obtain ⟨⟨e1, he1, hc1⟩, hv1⟩ := buildVal_spec h v
    obtain ⟨⟨e2, he2, hc2⟩, hv2⟩ := buildFields_spec (buildVal h v).1 fs'
    have hlen : h.length ≤ (buildVal h v).1.length := by
      simp [he1]
    refine ⟨⟨e1 ++ e2, ?_, ?_⟩, ?_⟩
    · simp only [buildFields]
      rw [he2, he1, List.append_assoc]
    · intro c hc
      rcases List.mem_append.mp hc with hl | hr
      · exact hc1 c hl
      · exact HCell.refsGE_mono hlen c (hc2 c hr)
    · intro w hw
      simp only [buildFields, List.mem_cons] at hw
      rcases hw with rfl | hw
      · exact hv1
      · exact HVal.refGE_mono hlen w.2 (hv2 w hw)
termination_by sizeOf fs

end

theorem decodeFields_mono_of (h h' : Heap) (fuel : Nat)
    (hP : ∀ (v : HVal) (j : JVal), decodeVal h fuel v = some j → decodeVal h' fuel v = some j) :
    ∀ (fs : List (String × HVal)) (l : List (String × JVal)),
      decodeFields h fuel fs = some l → decodeFields h' fuel fs = some l := by
  intro fs
  induction fs with
  | nil => intro l hd; simpa [decodeFields] using hd
  | cons kv fs' ih =>
    intro l hd
    obtain ⟨k, v⟩ := kv
    simp only [decodeFields] at hd ⊢
    cases hv : decodeVal h fuel v with
    | none => rw [hv] at hd; exact absurd hd (by simp)
    | some j1 =>
      rw [hv] at hd
      cases hf : decodeFields h fuel fs' with
      | none => rw [hf] at hd; exact absurd hd (by simp)
      | some rest =>
        rw [hf] at hd
        rw [hP v j1 hv, ih rest hf]
        exact hd

theorem decodeElems_mono_of (h h' : Heap) (fuel : Nat)
    (hP : ∀ (v : HVal) (j : JVal), decodeVal h fuel v = some j → decodeVal h' fuel v = some j) :
    ∀ (es : List HVal) (l : List JVal),
      decodeElems h fuel es = some l → decodeElems h' fuel es = some l := by
  intro es
  induction es with
  | nil => intro l hd; simpa [decodeElems] using hd
  | cons v es' ih =>
    intro l hd
    simp only [decodeElems] at hd ⊢
    cases hv : decodeVal h fuel v with
    | none => rw [hv] at hd; exact absurd hd (by simp)
    | some j1 =>
      rw [hv] at hd
      cases hf : decodeElems h fuel es' with
      | none => rw [hf] at hd; exact absurd hd (by simp)
      | some rest =>
        rw [hf] at hd
        rw [hP v j1 hv, ih rest hf]
        exact hd

/-- Decoding only reads live cells, so any heap that agrees on the cells
of `h` decodes every `h`-decodable value to the same tree. -/
theorem decodeVal_mono (h h' : Heap)
    (hag : ∀ (a : Nat) (c : HCell), h[a]? = some c → h'[a]? = some c) :
    ∀ (fuel : Nat) (v : HVal) (j : JVal),
      decodeVal h fuel v = some j → decodeVal h' fuel v = some j := by
  intro fuel
  induction fuel with
  | zero =>
    intro v j hd
    cases v <;> simp_all [decodeVal]
  | succ f ih =>
    intro v j hd
    cases v with
    | null => simpa [decodeVal] using hd
    | bool b => simpa [decodeVal] using hd
    | num q => simpa [decodeVal] using hd
    | str s => simpa [decodeVal] using hd
    | ref a =>
      simp only [decodeVal] at hd ⊢
      cases hc : h[a]? with
      | none => rw [hc] at hd; exact absurd hd (by simp)
      | some cell =>
        rw [hc] at hd
        rw [hag a cell hc]
        cases cell with
        | obj fs =>
          simp only at hd ⊢
          obtain ⟨l, hl, hj⟩ := Option.map_eq_some'.mp hd
          rw [decodeFields_mono_of h h' f ih fs l hl]
          simpa using hj
        | arr es =>
          simp only at hd ⊢
          obtain ⟨l, hl, hj⟩ := Option.map_eq_some'.mp hd
          rw [decodeElems_mono_of h h' f ih es l hl]
          simpa using hj

theorem hIndex0_refGE (h ext : Heap) (hc : ∀ c ∈ ext, HCell.refsGE h.length c)
    (v w : HVal) (hv : HVal.refGE h.length v) (hw : hIndex0 (h ++ ext) v = some w) :
    HVal.refGE h.length w := by
  cases v with
  | ref a =>
    have ha : h.length ≤ a := hv
    simp only [hIndex0, List.getElem?_append_right ha] at hw
    cases hcell : ext[a - h.length]? with
    | none => rw [hcell] at hw; exact absurd hw (by simp)
    | some cell =>
      rw [hcell] at hw
      have hmem : cell ∈ ext := by
        rcases List.getElem?_eq_some.mp hcell with ⟨hlt, he⟩
        exact he ▸ List.getElem_mem hlt
      cases cell with
      | arr es => exact hc _ hmem w (List.mem_of_mem_head? (Option.mem_def.mpr hw))
      | obj fs =>
        simp only at hw
        obtain ⟨kv, hfind, hsnd⟩ := Option.map_eq_some'.mp hw
        exact hsnd ▸ hc _ hmem kv (List.mem_of_find?_eq_some hfind)
  | str s =>
    simp only [hIndex0] at hw
    obtain ⟨c, _, hsnd⟩ := Option.map_eq_some'.mp hw
    simp [← hsnd, HVal.refGE]
  | null => exact absurd hw (by simp [hIndex0])
  | bool b => exact absurd hw (by simp [hIndex0])
  | num q => exact absurd hw (by simp [hIndex0])

theorem hProp_refGE (h ext : Heap) (hc : ∀ c ∈ ext, HCell.refsGE h.length c)
    (v w : HVal) (k : String) (hv : HVal.refGE h.length v)
    (hw : hProp (h ++ ext) v k = some w) :
    HVal.refGE h.length w := by
  cases v with
  | ref a =>
    have ha : h.length ≤ a := hv
    simp only [hProp, List.getElem?_append_right ha] at hw
    cases hcell : ext[a - h.length]? with
    | none => rw [hcell] at hw; exact absurd hw (by simp)
    | some cell =>
      rw [hcell] at hw
      have hmem : cell ∈ ext := by
        rcases List.getElem?_eq_some.mp hcell with ⟨hlt, he⟩
        exact he ▸ List.getElem_mem hlt
      cases cell with
      | arr es => exact absurd hw (by simp)
      | obj fs =>
        simp only at hw
        obtain ⟨kv, hfind, hsnd⟩ := Option.map_eq_some'.mp hw
        exact hsnd ▸ hc _ hmem kv (List.mem_of_find?_eq_some hfind)
  | null => exact absurd hw (by simp [hProp])
  | bool b => exact absurd hw (by simp [hProp])
  | num q => exact absurd hw (by simp [hProp])
  | str s => exact absurd hw (by simp [hProp])

theorem heapDeleteId_agrees (h2 : Heap) (g : Option HVal) (n : Nat)
    (hg : ∀ w, g = some w → HVal.refGE n w) (a : Nat) (c : HCell)
    (ha : a < n) (hc : h2[a]? = some c) : (heapDeleteId h2 g)[a]? = some c := by
  cases g with
  | none => exact hc
  | some w =>
    cases w with
    | ref a0 =>
      have h0 : n ≤ a0 := hg _ rfl
      have hne : a0 ≠ a := by omega
      simp only [heapDeleteId]
      cases h2[a0]? with
      | none => exact hc
      | some cell =>
        cases cell with
        | obj fs => rw [List.getElem?_set_ne hne]; exact hc
        | arr es => exact hc
    | null => exact hc
    | bool b => exact hc
    | num q => exact hc
    | str s => exact hc

/-- The final heap of `checkCompatibilityH` is either the input heap or
the result of cloning and then deleting `_id` inside the clone. -/
theorem checkCompatibilityH_fst (h : Heap) (r : HVal) :
    (checkCompatibilityH h r).1 = h ∨
    ∃ j', decodeVal h (h.length + 1) r = some j' ∧
      (checkCompatibilityH h r).1 =
        heapDeleteId (buildVal h j').1
          ((hIndex0 (buildVal h j').1 (buildVal h j').2).bind
            (fun st => hProp (buildVal h j').1 st "$group")) := by
  simp only [checkCompatibilityH]
  cases hKeysFirst h (hIndex0 h r) with
  | error e => left; rfl
  | ok k0 =>
    dsimp only
    by_cases hg : k0 = some "$group"
    · rw [if_pos hg]
      cases hd : decodeVal h (h.length + 1) r with
      | none => left; rfl
      | some j' =>
        right
        refine ⟨j', rfl, ?_⟩
        dsimp only
        cases (hIndex0 (buildVal h j').1 (buildVal h j').2).bind
            (fun st => hProp (buildVal h j').1 st "$group") with
        | none => rfl
        | some g =>
          dsimp only
          cases decodeVal (heapDeleteId (buildVal h j').1 (some g))
              ((heapDeleteId (buildVal h j').1 (some g)).length + 1) g with
          | none => rfl
          | some gJ => rfl
    · rw [if_neg hg]; left; rfl

/-- C6: `checkCompatibility` never observably mutates the caller's
pipeline: it deep-copies before deleting the grouping key, so any value
decodable in the initial heap decodes to the same tree in the final
heap, whether the call returns tuples or fails with an error. -/
theorem checkCompatibilityH_callerUnchanged (h : Heap) (r : HVal) (n : Nat) (j : JVal)
    (hdec : decodeVal h n r = some j) :
    decodeVal (checkCompatibilityH h r).1 n r = some j := by
  rcases checkCompatibilityH_fst h r with heq | ⟨j', hd, heq⟩
  · rw [heq]; exact hdec
  · rw [heq]
    obtain ⟨⟨ext, hext, hcells⟩, hrg⟩ := buildVal_spec h j'
    have hag2 : ∀ (a : Nat) (c : HCell), h[a]? = some c → (buildVal h j').1[a]? = some c := by
      intro a c hac
      have hlt : a < h.length := by
        rcases List.getElem?_eq_some.mp hac with ⟨hlt, _⟩
        exact hlt
      rw [hext, List.getElem?_append_left hlt]
      exact hac
    have hgr : ∀ w, ((hIndex0 (buildVal h j').1 (buildVal h j').2).bind
          (fun st => hProp (buildVal h j').1 st "$group")) = some w → HVal.refGE h.length w := by
      intro w hw
      rcases Option.bind_eq_some.mp hw with ⟨st, hst, hpw⟩
      have hst' : hIndex0 (h ++ ext) (buildVal h j').2 = some st := by
        rw [← hext]; exact hst
      have hpw' : hProp (h ++ ext) st "$group" = some w := by
        rw [← hext]; exact hpw
      exact hProp_refGE h ext hcells st w _ (hIndex0_refGE h ext hcells _ st hrg hst') hpw'
    have hag3 : ∀ (a : Nat) (c : HCell), h[a]? = some c →
        (heapDeleteId (buildVal h j').1 ((hIndex0 (buildVal h j').1 (buildVal h j').2).bind
          (fun st => hProp (buildVal h j').1 st "$group")))[a]? = some c := by
      intro a c hac
      have hlt : a < h.length := by
        rcases List.getElem?_eq_some.mp hac with ⟨hlt, _⟩
        exact hlt
      exact heapDeleteId_agrees _ _ h.length hgr a c hlt (hag2 a c hac)
    exact decodeVal_mono h _ hag3 n r j hdec

/-- `Object.keys(val)[0]` as a total function (meaningful on non-null
values). -/
def firstKeyOpt (v : JVal) : Option String :=
  ((ownPairs v).head?).map (fun kv => kv.1)

theorem objectKeysFirst_ok (v : JVal) (hv : v ≠ JVal.null) :
    objectKeysFirst v = .ok (firstKeyOpt v) := by
  cases v <;> simp_all [objectKeysFirst, firstKeyOpt]

theorem objectKeysFirst_error (v : JVal) (e : JsErr) (h : objectKeysFirst v = .error e) :
    e = .typeError := by
  cases v <;> simp_all [objectKeysFirst]

theorem checkOps_error (vs : List JVal) (e : JsErr) (h : checkOps vs = .error e) :
    e = .typeError := by
  induction vs with
  | nil => simp [checkOps] at h
  | cons v rest ih =>
    simp only [checkOps] at h
    cases hk : objectKeysFirst v with
    | error e' =>
      rw [hk] at h
      have he : e' = e := by simpa using h
      exact he ▸ objectKeysFirst_error v e' hk
    | ok k =>
      rw [hk] at h
      dsimp only at h
      by_cases hs : isSupportedOp k
      · rw [if_pos hs] at h
        exact ih h
      · rw [if_neg hs] at h
        simp at h

theorem checkOps_no_null (vs : List JVal) (hnn : ∀ v ∈ vs, v ≠ JVal.null) :
    checkOps vs = .ok (vs.all (fun v => isSupportedOp (firstKeyOpt v))) := by
  induction vs with
  | nil => simp [checkOps]
  | cons v rest ih =>
    simp only [checkOps, objectKeysFirst_ok v (hnn v (by simp))]
    by_cases hs : isSupportedOp (firstKeyOpt v)
    · rw [if_pos hs, ih (fun w hw => hnn w (by simp [hw]))]
      simp [hs]
    · rw [if_neg hs]
      have hf : isSupportedOp (firstKeyOpt v) = false := by simpa using hs
      simp [List.all_cons, hf]

theorem extractTuple_error (fv : String × JVal) (e : JsErr) (h : extractTuple fv = .error e) :
    e = .typeError := by
  unfold extractTuple at h
  split at h
  · next e' heq =>
    have he : e' = e := by simpa using h
    exact he ▸ objectKeysFirst_error _ e' heq
  · exact (by simpa using h : JsErr.typeError = e).symm
  · split at h
    · simp at h
    · simp at h
    · split at h
      · simp at h
      · exact (by simpa using h : JsErr.typeError = e).symm
    · simp at h
    · exact (by simpa using h : JsErr.typeError = e).symm
    · exact (by simpa using h : JsErr.typeError = e).symm
    · exact (by simpa using h : JsErr.typeError = e).symm

theorem extractTuples_error (l : List (String × JVal)) (e : JsErr)
    (h : extractTuples l = .error e) : e = .typeError := by
  induction l with
  | nil => simp [extractTuples] at h
  | cons fv rest ih =>
    simp only [extractTuples] at h
    cases ht : extractTuple fv with
    | error e' =>
      rw [ht] at h
      have he : e' = e := by simpa using h
      exact he ▸ extractTuple_error fv e' ht
    | ok t =>
      rw [ht] at h
      cases hr : extractTuples rest with
      | error e' =>
        rw [hr] at h
        have he : e' = e := by simpa using h
        exact ih (he ▸ hr)
      | ok ts =>
        rw [hr] at h
        simp at h

theorem scanGroupBody_ne_notAGroup (g : JVal) :
    scanGroupBody g ≠ .error .notAGroupPipeline := by
  intro h
  unfold scanGroupBody at h
  cases hc : checkOps ((ownPairs g).map (fun kv => kv.2)) with
  | error e =>
    rw [hc] at h
    have he : e = JsErr.notAGroupPipeline := by simpa using h
    exact absurd (he ▸ checkOps_error _ e hc) (by simp)
  | ok b =>
    rw [hc] at h
    cases b with
    | false => simp at h
    | true =>
      exact absurd (extractTuples_error _ _ h) (by simp)

theorem scanGroupBody_unsupported_iff (g : JVal)
    (hnn : ∀ v ∈ (ownPairs g).map (fun kv => kv.2), v ≠ JVal.null) :
    scanGroupBody g = .error .unsupportedOperator ↔
      ¬ ((ownPairs g).map (fun kv => kv.2)).all (fun v => isSupportedOp (firstKeyOpt v)) := by
  unfold scanGroupBody
  rw [checkOps_no_null _ hnn]
  by_cases hall : ((ownPairs g).map (fun kv => kv.2)).all (fun v => isSupportedOp (firstKeyOpt v))
  · rw [hall]
    simp only [hall]
    constructor
    · intro h
      exact absurd (extractTuples_error _ _ h) (by simp)
    · intro h
      exact absurd trivial (by simpa using h)
  · have hf : ((ownPairs g).map (fun kv => kv.2)).all (fun v => isSupportedOp (firstKeyOpt v)) = false := by
      simpa using hall
    rw [hf]
    simpa using hall

/-!  Concrete pipelines and datasets used to settle the claims. -/

/-- The top-3-average query over the DMV dataset (README `p2`, spec
scenario 2). -/
def topAvgPipeline : List JVal :=
  [JVal.obj [("$group", JVal.obj [("_id", JVal.str "$Model Year"),
      ("avg_weight", JVal.obj [("$avg", JVal.str "$Unladen Weight")])])],
   JVal.obj [("$sort", JVal.obj [("avg_weight", JVal.num (qint (-1)))])],
   JVal.obj [("$limit", JVal.num (qint 3))]]

/-- What `queryCube` actually produces for `topAvgPipeline`. -/
def topAvgRewritten : List JVal :=
  [JVal.obj [("$group", JVal.obj [("_id", JVal.str "$Model Year"),
      ("Unladen Weight_sum", JVal.obj [("$sum", JVal.str "$Unladen Weight.sum")]),
      ("count", JVal.obj [("$sum", JVal.str "$count")])])],
   JVal.obj [("$set", JVal.obj [("Unladen Weight_avg",
      JVal.obj [("$divide", JVal.arr [JVal.str "$Unladen Weight_sum", JVal.str "$count"])])])],
   JVal.obj [("$project", JVal.obj [("_id", JVal.num (qint 1)), ("avg_weight", JVal.str "$Unladen Weight_avg")])],
   JVal.obj [("$sort", JVal.obj [("avg_weight", JVal.num (qint (-1)))])],
   JVal.obj [("$limit", JVal.num (qint 3))]]

/-- A one-measure query averaging `m` per grouping key `k`. -/
def avgQuery : List JVal :=
  [JVal.obj [("$group", JVal.obj [("_id", JVal.str "$k"),
      ("a", JVal.obj [("$avg", JVal.str "$m")])])]]

/-- What `queryCube` actually produces for `avgQuery`: it sums the
nested `m.sum`, sums the top-level `count`, and derives the average by
an unguarded `$divide` of `m_sum` by the overall `count`. -/
def avgQueryRewritten : List JVal :=
  [JVal.obj [("$group", JVal.obj [("_id", JVal.str "$k"),
      ("m_sum", JVal.obj [("$sum", JVal.str "$m.sum")]),
      ("count", JVal.obj [("$sum", JVal.str "$count")])])],
   JVal.obj [("$set", JVal.obj [("m_avg",
      JVal.obj [("$divide", JVal.arr [JVal.str "$m_sum", JVal.str "$count"])])])],
   JVal.obj [("$project", JVal.obj [("_id", JVal.num (qint 1)), ("a", JVal.str "$m_avg")])]]

/-- Two raw documents in one `k`-partition; `m` is present on only one. -/
def twoDocs : List JVal :=
  [JVal.obj [("k", JVal.num (qint 1)), ("m", JVal.num (qint 10))],
   JVal.obj [("k", JVal.num (qint 1))]]

/-- The cube document `createCube ["k"] ["m"]` materializes for
`twoDocs`. -/
def twoDocsCube : List JVal :=
  [JVal.obj [("count", JVal.num (qint 2)),
    ("m", JVal.obj [("sum", JVal.num (qint 10)), ("min", JVal.num (qint 10)),
                    ("max", JVal.num (qint 10)), ("count", JVal.num (qint 1))]),
    ("k", JVal.num (qint 1))]]

/-- One raw document carrying no `m` at all: its partition has measure
count 0. -/
def oneDocNoM : List JVal := [JVal.obj [("k", JVal.num (qint 1))]]

/-- The cube document materialized for `oneDocNoM`: the measure count
is 0 while the overall document count is 1. -/
def oneDocNoMCube : List JVal :=
  [JVal.obj [("count", JVal.num (qint 1)),
    ("m", JVal.obj [("sum", JVal.num (qint 0)), ("min", JVal.null),
                    ("max", JVal.null), ("count", JVal.num (qint 0))]),
    ("k", JVal.num (qint 1))]]

/-- C1: the central equivalence claim fails on the code.  For the
two-document collection `twoDocs` (one of which lacks the measure `m`),
the pipeline `avgQuery` is accepted by `checkCompatibility` and yields
average 10 against the raw collection ($avg ignores the missing value),
but the rewritten pipeline produced by the code, run against the cube
materialized by `createCube`, yields 5: the code divides the measure sum
by the overall document count instead of the measure count. -/
theorem queryCube_avg_not_equivalent :
    checkCompatibility avgQuery = .ok [("a", "avg", "m")] ∧
    aggregate twoDocs avgQuery =
      .ok [JVal.obj [("_id", JVal.num (qint 1)), ("a", JVal.num (qint 10))]] ∧
    aggregate twoDocs (createCube ["k"] ["m"] "cube") = .ok twoDocsCube ∧
    queryCube avgQuery = .ok avgQueryRewritten ∧
    aggregate twoDocsCube avgQueryRewritten =
      .ok [JVal.obj [("_id", JVal.num (qint 1)), ("a", JVal.num (qint 5))]] ∧
    JVal.num (qint 10) ≠ JVal.num (qint 5) :=
  ⟨by rfl, by rfl, by rfl, by rfl, by rfl, by simp [qint]⟩

/-- C2: the code derives averages with an unguarded `$divide` by the
top-level `count` — not the `$cond`-guarded safe divide by the measure
count that the README documents.  On a partition whose measure count is
0 (`oneDocNoM`), the original pipeline yields `null` but the rewritten
pipeline yields `0`, not `null`. -/
theorem createPipeline_naiveDivide :
    queryCube avgQuery = .ok avgQueryRewritten ∧
    (getProp ((avgQueryRewritten.drop 1).headD JVal.null) "$set" =
      some (JVal.obj [("m_avg",
        JVal.obj [("$divide", JVal.arr [JVal.str "$m_sum", JVal.str "$count"])])])) ∧
    aggregate oneDocNoM avgQuery =
      .ok [JVal.obj [("_id", JVal.num (qint 1)), ("a", JVal.null)]] ∧
    aggregate oneDocNoM (createCube ["k"] ["m"] "cube") = .ok oneDocNoMCube ∧
    aggregate oneDocNoMCube avgQueryRewritten =
      .ok [JVal.obj [("_id", JVal.num (qint 1)), ("a", JVal.num (qint 0))]] ∧
    JVal.num (qint 0) ≠ JVal.null :=
  ⟨by rfl, by rfl, by rfl, by rfl, by rfl, by simp⟩

/-- C3: the actual rewrite of the top-3-average pipeline: its grouping
stage computes `"Unladen Weight_sum"` and the top-level `count` (not
`"Unladen Weight_count"`), its `$set` stage uses a bare `$divide` by
`$count` (not the `$cond`-guarded safe divide), then the projection,
sort and limit stages. -/
theorem queryCube_topAvg_actual :
    queryCube topAvgPipeline = .ok topAvgRewritten ∧
    (getProp (topAvgRewritten.headD JVal.null) "$group" =
      some (JVal.obj [("_id", JVal.str "$Model Year"),
        ("Unladen Weight_sum", JVal.obj [("$sum", JVal.str "$Unladen Weight.sum")]),
        ("count", JVal.obj [("$sum", JVal.str "$count")])])) ∧
    "count" ≠ "Unladen Weight_count" :=
  ⟨rfl, rfl, by decide⟩

/-- C4: `d.replace(".", "_")` replaces only the first dot, so the
dimension `"a.b.c"` is encoded as `"a_b.c"`: the grouping-key field name
retains a path separator, contradicting the all-dots-replaced encoding
the spec states. -/
theorem createCube_encodesFirstDotOnly :
    jsReplaceDot "a.b.c" = "a_b.c" ∧
    getProp ((getProp ((createCube ["a.b.c"] ["m"] "out").headD JVal.null) "$group").getD JVal.null)
        "_id" = some (JVal.obj [("a_b.c", JVal.str "$a.b.c")]) ∧
    "a_b.c" ≠ "a_b_c" :=
  ⟨rfl, rfl, by decide⟩

/-- C5 counterexample: an accumulator operand that is a string without
the `$` field-reference marker is not rejected: `checkCompatibility`
succeeds (no `InvalidOperand` failure exists), silently stripping the
first character of the operand. -/
theorem checkCompatibility_acceptsNonRefOperand :
    checkCompatibility [JVal.obj [("$group", JVal.obj
        [("_id", JVal.null), ("f", JVal.obj [("$sum", JVal.str "abc")])])]] =
      .ok [("f", "sum", "bc")] :=
  rfl

/-- C5 amended: `checkCompatibility` performs no operand validation: any
string operand — marker or not — is accepted with its first character
stripped, and a non-string, non-object operand other than the literal 1
(here the number 2) raises a `TypeError`, not an `InvalidOperand`
failure. -/
theorem checkCompatibility_noOperandValidation :
    (∀ s : String, checkCompatibility [JVal.obj [("$group", JVal.obj
        [("_id", JVal.null), ("f", JVal.obj [("$sum", JVal.str s)])])]] =
      .ok [("f", "sum", s.drop 1)]) ∧
    checkCompatibility [JVal.obj [("$group", JVal.obj
        [("_id", JVal.null), ("f", JVal.obj [("$sum", JVal.num (qint 2))])])]] =
      .error .typeError := by
  refine ⟨fun s => ?_, by rfl⟩
  rfl

/-- C7 counterexample: for the empty pipeline (first stage absent) the
code throws a `TypeError` from `Object.keys(undefined)`, not the
`NotAGroupPipeline` error the claim states. -/
theorem checkCompatibility_empty_typeError :
    checkCompatibility ([] : List JVal) = .error .typeError ∧
    JsErr.typeError ≠ JsErr.notAGroupPipeline :=
  ⟨rfl, by decide⟩

/-- C7 amended: `checkCompatibility` fails with `NotAGroupPipeline`
exactly when the pipeline has a first stage whose keys are readable
(`Object.keys` does not throw) and whose first key is not `$group`; the
empty pipeline instead fails with a `TypeError`. -/
theorem notAGroupPipeline_characterization :
    (∀ ppl : List JVal, checkCompatibility ppl = .error .notAGroupPipeline ↔
      ∃ s rest k0, ppl = s :: rest ∧ objectKeysFirst s = .ok k0 ∧ k0 ≠ some "$group") ∧
    checkCompatibility ([] : List JVal) = .error .typeError := by
  refine ⟨fun ppl => ?_, rfl⟩
  cases ppl with
  | nil =>
    constructor
    · intro h
      simp [checkCompatibility] at h
    · rintro ⟨s, rest, k0, heq, -, -⟩
      simp at heq
  | cons s rest =>
    simp only [checkCompatibility]
    cases hk : objectKeysFirst s with
    | error e =>
      constructor
      · intro h
        have he : e = JsErr.notAGroupPipeline := by simpa using h
        exact absurd (he ▸ objectKeysFirst_error s e hk) (by simp)
      · rintro ⟨s', rest', k0, heq, hk', -⟩
        obtain ⟨rfl, rfl⟩ : s' = s ∧ rest' = rest := by
          constructor <;> [exact (List.cons.injEq _ _ _ _ ▸ heq).1.symm;
            exact (List.cons.injEq _ _ _ _ ▸ heq).2.symm]
        rw [hk] at hk'
        simp at hk'
    | ok k0 =>
      dsimp only
      by_cases hg : k0 = some "$group"
      · rw [if_pos hg]
        constructor
        · intro h
          exact absurd h (scanGroupBody_ne_notAGroup _)
        · rintro ⟨s', rest', k0', heq, hk', hne⟩
          obtain ⟨rfl, rfl⟩ : s' = s ∧ rest' = rest := by
            constructor <;> [exact (List.cons.injEq _ _ _ _ ▸ heq).1.symm;
              exact (List.cons.injEq _ _ _ _ ▸ heq).2.symm]
          rw [hk] at hk'
          have : k0' = k0 := by simpa using hk'.symm
          exact absurd (this ▸ hg) hne
      · rw [if_neg hg]
        exact ⟨fun _ => ⟨s, rest, k0, rfl, hk, hg⟩, fun _ => rfl⟩

/-- C8: for a pipeline whose first stage is a grouping stage with an
object body, `checkCompatibility` fails with `UnsupportedOperator`
exactly when some remaining (non-`_id`) field's accumulator operator key
— its first key — is not one of `$sum`/`$min`/`$max`/`$avg`; when every
such key is supported this error is never raised.  (A `null` accumulator
would make `Object.keys` throw a `TypeError` first, hence the
hypothesis.) -/
theorem unsupportedOperator_iff (gl srest : List (String × JVal)) (rest : List JVal)
    (hnn : ∀ kv ∈ gl, kv.1 ≠ "_id" → kv.2 ≠ JVal.null) :
    checkCompatibility (JVal.obj (("$group", JVal.obj gl) :: srest) :: rest) =
        .error .unsupportedOperator ↔
      ∃ kv ∈ gl, kv.1 ≠ "_id" ∧ isSupportedOp (firstKeyOpt kv.2) = false := by
  have hred : checkCompatibility (JVal.obj (("$group", JVal.obj gl) :: srest) :: rest) =
      scanGroupBody (JVal.obj (gl.filter (fun kv => kv.1 ≠ "_id"))) := by rfl
  have hnn' : ∀ v ∈ (ownPairs (JVal.obj (gl.filter (fun kv => kv.1 ≠ "_id")))).map
      (fun kv => kv.2), v ≠ JVal.null := by
    intro v hv
    simp only [ownPairs] at hv
    obtain ⟨kv, hkvmem, rfl⟩ := List.mem_map.mp hv
    have hm := List.mem_filter.mp hkvmem
    exact hnn kv hm.1 (by simpa using hm.2)
  rw [hred, scanGroupBody_unsupported_iff _ hnn']
  simp only [ownPairs]
  constructor
  · intro h
    rw [List.all_eq_true] at h
    push_neg at h
    obtain ⟨v, hv, hnp⟩ := h
    obtain ⟨kv, hkvmem, rfl⟩ := List.mem_map.mp hv
    have hm := List.mem_filter.mp hkvmem
    exact ⟨kv, hm.1, by simpa using hm.2, by simpa using hnp⟩
  · rintro ⟨kv, hmem, hne, hbad⟩
    rw [List.all_eq_true]
    push_neg
    exact ⟨kv.2, List.mem_map.mpr ⟨kv, List.mem_filter.mpr ⟨hmem, by simpa using hne⟩, rfl⟩,
      by simp [hbad]⟩

/-- C8 witness: a `$push` accumulator makes `checkCompatibility` fail
with `UnsupportedOperator`. -/
theorem unsupportedOperator_iff_witness :
    checkCompatibility [JVal.obj [("$group", JVal.obj
        [("_id", JVal.null), ("f", JVal.obj [("$push", JVal.str "$x")])])]] =
      .error .unsupportedOperator :=
  (unsupportedOperator_iff [("_id", JVal.null), ("f", JVal.obj [("$push", JVal.str "$x")])] [] []
      (by
        rintro kv hkv hne
        rcases List.mem_cons.mp hkv with rfl | hkv
        · exact absurd rfl hne
        rcases List.mem_cons.mp hkv with rfl | hkv
        · simp
        · exact absurd hkv (List.not_mem_nil _))).mpr
    ⟨("f", JVal.obj [("$push", JVal.str "$x")]), by simp, by simp, by rfl⟩

/-- Truncate an accumulator object to its first key/value pair. -/
def truncFirst : JVal → JVal
  | .obj (p :: _) => .obj [p]
  | v => v

/-- Truncate every non-`_id` field of a grouping body to its
accumulator's first pair. -/
def truncAccumFields (gl : List (String × JVal)) : List (String × JVal) :=
  gl.map (fun kv => if kv.1 = "_id" then kv else (kv.1, truncFirst kv.2))

theorem objectKeysFirst_trunc (v : JVal) : objectKeysFirst (truncFirst v) = objectKeysFirst v := by
  cases v with
  | obj l => cases l <;> rfl
  | null => rfl
  | bool b => rfl
  | num q => rfl
  | str s => rfl
  | arr es => rfl

theorem checkOps_trunc (vs : List JVal) : checkOps (vs.map truncFirst) = checkOps vs := by
  induction vs with
  | nil => rfl
  | cons v rest ih =>
    simp only [List.map_cons, checkOps, objectKeysFirst_trunc, ih]

theorem extractTuple_trunc (k : String) (v : JVal) :
    extractTuple (k, truncFirst v) = extractTuple (k, v) := by
  cases v with
  | obj l => cases l <;> rfl
  | null => rfl
  | bool b => rfl
  | num q => rfl
  | str s => rfl
  | arr es => rfl

theorem extractTuples_trunc (l : List (String × JVal)) :
    extractTuples (l.map (fun kv => (kv.1, truncFirst kv.2))) = extractTuples l := by
  induction l with
  | nil => rfl
  | cons kv rest ih =>
    simp only [List.map_cons, extractTuples, ih]
    rw [show ((kv.1, truncFirst kv.2) : String × JVal) = (kv.1, truncFirst kv.2) from rfl,
      extractTuple_trunc kv.1 kv.2]

theorem scanGroupBody_trunc (l : List (String × JVal)) :
    scanGroupBody (JVal.obj (l.map (fun kv => (kv.1, truncFirst kv.2)))) =
      scanGroupBody (JVal.obj l) := by
  unfold scanGroupBody
  simp only [ownPairs]
  have hvals : (l.map (fun kv => (kv.1, truncFirst kv.2))).map (fun kv => kv.2) =
      (l.map (fun kv => kv.2)).map truncFirst := by
    simp [List.map_map]
  rw [hvals, checkOps_trunc, extractTuples_trunc]

theorem truncAccumFields_filter (gl : List (String × JVal)) :
    (truncAccumFields gl).filter (fun kv => kv.1 ≠ "_id") =
      (gl.filter (fun kv => kv.1 ≠ "_id")).map (fun kv => (kv.1, truncFirst kv.2)) := by
  induction gl with
  | nil => rfl
  | cons kv gl' ih =>
    by_cases hk : kv.1 = "_id"
    · simp [truncAccumFields, List.filter_cons, hk] at ih ⊢
      exact ih
    · simp [truncAccumFields, List.filter_cons, hk] at ih ⊢
      exact ih

/-- C10: `checkCompatibility` inspects only each accumulator's first
key/value pair: truncating every accumulator of a grouping stage to its
first pair never changes the result, and in particular an accumulator
carrying extra keys after a supported first operator is accepted with
the extra keys ignored. -/
theorem checkCompatibility_firstKeyOnly :
    (∀ (gl srest : List (String × JVal)) (rest : List JVal),
      checkCompatibility (JVal.obj (("$group", JVal.obj (truncAccumFields gl)) :: srest) :: rest) =
        checkCompatibility (JVal.obj (("$group", JVal.obj gl) :: srest) :: rest)) ∧
    (∀ extra : List (String × JVal),
      checkCompatibility [JVal.obj [("$group", JVal.obj
          [("_id", JVal.null), ("f", JVal.obj (("$sum", JVal.str "$x") :: extra))])]] =
        .ok [("f", "sum", "x")]) := by
  constructor
  · intro gl srest rest
    have h1 : checkCompatibility
        (JVal.obj (("$group", JVal.obj (truncAccumFields gl)) :: srest) :: rest) =
        scanGroupBody (JVal.obj ((truncAccumFields gl).filter (fun kv => kv.1 ≠ "_id"))) := by
      rfl
    have h2 : checkCompatibility (JVal.obj (("$group", JVal.obj gl) :: srest) :: rest) =
        scanGroupBody (JVal.obj (gl.filter (fun kv => kv.1 ≠ "_id"))) := by
      rfl
    rw [h1, h2, truncAccumFields_filter, scanGroupBody_trunc]
  · intro extra
    rfl

theorem oset_append_of_not_mem (o : JsObj) (k : String) (v : JVal)
    (hk : k ∉ o.map Prod.fst) : oset o k v = o ++ [(k, v)] := by
  have hany : o.any (fun kv => kv.1 = k) = false := by
    rw [List.any_eq_false]
    intro kv hkv hkk
    exact hk (List.mem_map.mpr ⟨kv, hkv, by simpa using hkk⟩)
  simp [oset, hany]

/-- Spreading a fragment with fresh, duplicate-free keys is plain list
append. -/
theorem ospread_eq_append (e : JsObj) : ∀ o : JsObj,
    (∀ k ∈ e.map Prod.fst, k ∉ o.map Prod.fst) → (e.map Prod.fst).Nodup →
    ospread o e = o ++ e := by
  induction e with
  | nil => intro o _ _; simp [ospread]
  | cons kv e' ih =>
    intro o hd hnd
    have hfresh : kv.1 ∉ o.map Prod.fst := hd kv.1 (by simp)
    have hstep : ospread o (kv :: e') = ospread (oset o kv.1 kv.2) e' := rfl
    have hosk : oset o kv.1 kv.2 = o ++ [kv] := oset_append_of_not_mem o kv.1 kv.2 hfresh
    have hnd' : (e'.map Prod.fst).Nodup := (List.nodup_cons.mp (by simpa using hnd)).2
    have hhead : kv.1 ∉ e'.map Prod.fst := (List.nodup_cons.mp (by simpa using hnd)).1
    have hd' : ∀ k ∈ e'.map Prod.fst, k ∉ (oset o kv.1 kv.2).map Prod.fst := by
      intro k hk
      rw [hosk]
      simp only [List.map_append, List.mem_append]
      push_neg
      refine ⟨hd k (by simp [hk]), ?_⟩
      simp only [List.map_cons, List.map_nil, List.mem_singleton]
      intro hkk
      exact hhead (hkk ▸ hk)
    rw [hstep, ih (oset o kv.1 kv.2) hd' hnd', hosk]
    simp

/-- Folding fragment spreads over a list of names concatenates the
fragments when all generated keys are globally duplicate-free. -/
theorem foldl_ospread_eq_append (f : String → JsObj) (ms : List String) : ∀ o : JsObj,
    (o.map Prod.fst ++ ms.flatMap (fun m => (f m).map Prod.fst)).Nodup →
    ms.foldl (fun acc m => ospread acc (f m)) o = o ++ ms.flatMap f := by
  induction ms with
  | nil => intro o _; simp
  | cons m ms' ih =>
    intro o hnd
    rw [List.flatMap_cons, ← List.append_assoc] at hnd
    have hnd1 : ((o.map Prod.fst ++ (f m).map Prod.fst)).Nodup := hnd.of_append_left
    have hdisj1 := List.disjoint_of_nodup_append hnd1
    have hsp : ospread o (f m) = o ++ f m := by
      apply ospread_eq_append
      · intro k hk hko
        exact hdisj1 hko hk
      · exact hnd1.of_append_right
    have hnd2 : ((ospread o (f m)).map Prod.fst ++
        ms'.flatMap (fun m' => (f m').map Prod.fst)).Nodup := by
      rw [hsp, List.map_append]
      exact hnd
    simp only [List.foldl_cons]
    rw [ih (ospread o (f m)) hnd2, hsp, List.flatMap_cons, List.append_assoc]

/-- The four accumulator field names a measure generates in the cube's
grouping stage. -/
def measureKeys (m : String) : List String :=
  [m ++ "_sum", m ++ "_min", m ++ "_max", m ++ "_count"]

theorem mapMeasure_keys (m : String) : (mapMeasure m).map Prod.fst = measureKeys m := rfl

theorem nestedMeasure_keys (m : String) : (nestedMeasure m).map Prod.fst = [m] := rfl

theorem measureKeys_ne_id (meas : List String) :
    ∀ k ∈ meas.flatMap measureKeys, k ≠ "_id" := by
  intro k hk
  obtain ⟨m, _, hkm⟩ := List.mem_flatMap.mp hk
  simp only [measureKeys, List.mem_cons, List.mem_singleton, List.not_mem_nil, or_false] at hkm
  rcases hkm with rfl | rfl | rfl | rfl <;>
    · intro h
      have hlen := congrArg String.length h
      simp only [String.length_append, show "_sum".length = 4 from rfl,
        show "_min".length = 4 from rfl, show "_max".length = 4 from rfl,
        show "_count".length = 6 from rfl, show "_id".length = 3 from rfl] at hlen
      omega

theorem flatMap_mapMeasure_length (l : List String) :
    (l.flatMap mapMeasure).length = 4 * l.length := by
  induction l with
  | nil => rfl
  | cons m l' ih =>
    simp only [List.flatMap_cons, List.length_append, List.length_cons, ih, mapMeasure,
      List.length_nil]
    omega

theorem flatMap_nestedMeasure_length (l : List String) :
    (l.flatMap nestedMeasure).length = l.length := by
  induction l with
  | nil => rfl
  | cons m l' ih =>
    simp only [List.flatMap_cons, List.length_append, List.length_cons, ih, nestedMeasure,
      List.length_nil]
    omega

theorem flatMap_mapMeasure_keys (l : List String) :
    (l.flatMap mapMeasure).map Prod.fst = l.flatMap measureKeys := by
  induction l with
  | nil => rfl
  | cons m l' ih => simp [List.flatMap_cons, ih, ← mapMeasure_keys]

theorem flatMap_nestedMeasure_keys (l : List String) :
    (l.flatMap nestedMeasure).map Prod.fst = l := by
  induction l with
  | nil => rfl
  | cons m l' ih => simp [List.flatMap_cons, ih, nestedMeasure]

/-- C9: for non-empty `dimensions` and `measures` whose generated field
names are duplicate-free (no collision among encoded dimension names,
among the per-measure accumulator names and `count`, or among the
projected root names and the reserved `_id`/`count`), `createCube`
returns a grouping stage whose `_id` object has exactly `|dimensions|`
keys and whose accumulator set has exactly `1 + 4·|measures|` fields,
and a projection stage with exactly `1 + |measures| + |dimensions|`
fields besides the dropped `_id`. -/
theorem createCube_fieldCounts (dims meas : List String) (outc : String)
    (hd : dims ≠ []) (hm : meas ≠ [])
    (h1 : (dims.map jsReplaceDot).Nodup)
    (h2 : ("count" :: meas.flatMap measureKeys).Nodup)
    (h3 : ("_id" :: "count" :: (meas ++ dims)).Nodup) :
    ∃ gb pb idb,
      createCube dims meas outc =
        [JVal.obj [("$group", JVal.obj gb)],
         JVal.obj [("$project", JVal.obj pb)],
         JVal.obj [("$out", JVal.str outc)]] ∧
      gb.head? = some ("_id", JVal.obj idb) ∧
      idb.length = dims.length ∧
      (gb.filter (fun kv => kv.1 ≠ "_id")).length = 1 + 4 * meas.length ∧
      (pb.filter (fun kv => kv.1 ≠ "_id")).length = 1 + meas.length + dims.length := by
  have hndM : (meas.flatMap measureKeys).Nodup := (List.nodup_cons.mp h2).2
  have hcountM : "count" ∉ meas.flatMap measureKeys := (List.nodup_cons.mp h2).1
  have h3' : ((["_id", "count"] : List String) ++ (meas ++ dims)).Nodup := h3
  have hndmd : (meas ++ dims).Nodup := h3'.of_append_right
  have hdisj3 := List.disjoint_of_nodup_append h3'
  have hndMe : meas.Nodup := hndmd.of_append_left
  have hndD : dims.Nodup := hndmd.of_append_right
  have hdisjMD := List.disjoint_of_nodup_append hndmd
  -- the `_id` object
  have hidb : zipObject (dims.map jsReplaceDot) (dims.map (fun d => JVal.str ("$" ++ d))) =
      (dims.map jsReplaceDot).zip (dims.map (fun d => JVal.str ("$" ++ d))) := by
    have hz : zipObject (dims.map jsReplaceDot) (dims.map (fun d => JVal.str ("$" ++ d))) =
        ospread [] ((dims.map jsReplaceDot).zip (dims.map (fun d => JVal.str ("$" ++ d)))) := rfl
    have hkeys : ((dims.map jsReplaceDot).zip
        (dims.map (fun d => JVal.str ("$" ++ d)))).map Prod.fst = dims.map jsReplaceDot :=
      List.map_fst_zip _ _ (by simp)
    rw [hz, ospread_eq_append _ [] (by simp) (by rw [hkeys]; exact h1)]
    simp
  -- the accumulator fragment
  have hmapped : meas.foldl (fun acc m => ospread acc (mapMeasure m)) [] =
      meas.flatMap mapMeasure := by
    have h := foldl_ospread_eq_append mapMeasure meas []
    simp only [List.map_nil, List.nil_append, mapMeasure_keys] at h
    exact h hndM
  -- the nested-measure fragment
  have hnested : meas.foldl (fun acc m => ospread acc (nestedMeasure m)) [] =
      meas.flatMap nestedMeasure := by
    have h := foldl_ospread_eq_append nestedMeasure meas []
    simp only [List.map_nil, List.nil_append, nestedMeasure_keys] at h
    apply h
    simpa [List.flatMap_singleton] using hndMe
  refine ⟨_, _, zipObject (dims.map jsReplaceDot) (dims.map (fun d => JVal.str ("$" ++ d))),
    by rfl, ?_, ?_, ?_, ?_⟩
  -- head of the grouping body
  case _ =>
    have hgb : ospread
        [("_id", JVal.obj (zipObject (dims.map jsReplaceDot)
            (dims.map (fun d => JVal.str ("$" ++ d))))),
         ("count", JVal.obj [("$sum", JVal.num (qint 1))])]
        (meas.foldl (fun acc m => ospread acc (mapMeasure m)) []) =
        [("_id", JVal.obj (zipObject (dims.map jsReplaceDot)
            (dims.map (fun d => JVal.str ("$" ++ d))))),
         ("count", JVal.obj [("$sum", JVal.num (qint 1))])] ++ meas.flatMap mapMeasure := by
      rw [hmapped]
      apply ospread_eq_append
      · intro k hk
        rw [flatMap_mapMeasure_keys] at hk
        simp only [List.map_cons, List.map_nil, List.mem_cons, List.not_mem_nil, or_false]
        push_neg
        exact ⟨measureKeys_ne_id meas k hk, fun h => hcountM (h ▸ hk)⟩
      · rw [flatMap_mapMeasure_keys]
        exact hndM
    rw [hgb]
    rfl
  case _ =>
    rw [hidb]
    simp
  case _ =>
    have hgb : ospread
        [("_id", JVal.obj (zipObject (dims.map jsReplaceDot)
            (dims.map (fun d => JVal.str ("$" ++ d))))),
         ("count", JVal.obj [("$sum", JVal.num (qint 1))])]
        (meas.foldl (fun acc m => ospread acc (mapMeasure m)) []) =
        [("_id", JVal.obj (zipObject (dims.map jsReplaceDot)
            (dims.map (fun d => JVal.str ("$" ++ d))))),
         ("count", JVal.obj [("$sum", JVal.num (qint 1))])] ++ meas.flatMap mapMeasure := by
      rw [hmapped]
      apply ospread_eq_append
      · intro k hk
        rw [flatMap_mapMeasure_keys] at hk
        simp only [List.map_cons, List.map_nil, List.mem_cons, List.not_mem_nil, or_false]
        push_neg
        exact ⟨measureKeys_ne_id meas k hk, fun h => hcountM (h ▸ hk)⟩
      · rw [flatMap_mapMeasure_keys]
        exact hndM
    rw [hgb, List.filter_append]
    have hbase : ([("_id", JVal.obj (zipObject (dims.map jsReplaceDot)
          (dims.map (fun d => JVal.str ("$" ++ d))))),
        ("count", JVal.obj [("$sum", JVal.num (qint 1))])] : JsObj).filter
          (fun kv => kv.1 ≠ "_id") =
        [("count", JVal.obj [("$sum", JVal.num (qint 1))])] := by
      simp
    have hrest : (meas.flatMap mapMeasure).filter (fun kv => kv.1 ≠ "_id") =
        meas.flatMap mapMeasure := by
      apply List.filter_eq_self.mpr
      intro kv hkv
      have hkey : kv.1 ∈ (meas.flatMap mapMeasure).map Prod.fst :=
        List.mem_map_of_mem Prod.fst hkv
      rw [flatMap_mapMeasure_keys] at hkey
      simpa using measureKeys_ne_id meas kv.1 hkey
    rw [hbase, hrest]
    simp only [List.length_append, List.length_cons, List.length_nil,
      flatMap_mapMeasure_length]
  case _ =>
    have hinner : ospread [("_id", JVal.num (qint 0)), ("count", JVal.num (qint 1))]
        (meas.foldl (fun acc m => ospread acc (nestedMeasure m)) []) =
        [("_id", JVal.num (qint 0)), ("count", JVal.num (qint 1))] ++
          meas.flatMap nestedMeasure := by
      rw [hnested]
      apply ospread_eq_append
      · intro k hk
        rw [flatMap_nestedMeasure_keys] at hk
        simp only [List.map_cons, List.map_nil, List.mem_cons, List.not_mem_nil, or_false]
        push_neg
        constructor
        · intro h
          exact hdisj3 (by simp) (List.mem_append_left dims (h ▸ hk))
        · intro h
          exact hdisj3 (by simp) (List.mem_append_left dims (h ▸ hk))
      · rw [flatMap_nestedMeasure_keys]
        exact hndMe
    have hzipu : zipObject dims ((dims.map jsReplaceDot).map
        (fun d => JVal.str ("$_id." ++ d))) =
        dims.zip ((dims.map jsReplaceDot).map (fun d => JVal.str ("$_id." ++ d))) := by
      have hz : zipObject dims ((dims.map jsReplaceDot).map
          (fun d => JVal.str ("$_id." ++ d))) =
          ospread [] (dims.zip ((dims.map jsReplaceDot).map
            (fun d => JVal.str ("$_id." ++ d)))) := rfl
      have hkeys : (dims.zip ((dims.map jsReplaceDot).map
          (fun d => JVal.str ("$_id." ++ d)))).map Prod.fst = dims :=
        List.map_fst_zip _ _ (by simp)
      rw [hz, ospread_eq_append _ [] (by simp) (by rw [hkeys]; exact hndD)]
      simp
    have hzkeys : (dims.zip ((dims.map jsReplaceDot).map
        (fun d => JVal.str ("$_id." ++ d)))).map Prod.fst = dims :=
      List.map_fst_zip _ _ (by simp)
    have houter : ospread
        (ospread [("_id", JVal.num (qint 0)), ("count", JVal.num (qint 1))]
          (meas.foldl (fun acc m => ospread acc (nestedMeasure m)) []))
        (zipObject dims ((dims.map jsReplaceDot).map (fun d => JVal.str ("$_id." ++ d)))) =
        ([("_id", JVal.num (qint 0)), ("count", JVal.num (qint 1))] ++
          meas.flatMap nestedMeasure) ++
          dims.zip ((dims.map jsReplaceDot).map (fun d => JVal.str ("$_id." ++ d))) := by
      rw [hinner, hzipu]
      apply ospread_eq_append
      · intro k hk
        rw [hzkeys] at hk
        simp only [List.map_append, List.mem_append, List.map_cons, List.map_nil,
          List.mem_cons, List.not_mem_nil, or_false]
        push_neg
        refine ⟨⟨?_, ?_⟩, ?_⟩
        · intro h
          exact hdisj3 (by simp) (List.mem_append_right meas (h ▸ hk))
        · intro h
          exact hdisj3 (by simp) (List.mem_append_right meas (h ▸ hk))
        · rw [flatMap_nestedMeasure_keys]
          intro h
          exact hdisjMD h hk
      · rw [hzkeys]
        exact hndD
    rw [houter, List.filter_append, List.filter_append]
    have hbase : ([("_id", JVal.num (qint 0)), ("count", JVal.num (qint 1))] : JsObj).filter
        (fun kv => kv.1 ≠ "_id") = [("count", JVal.num (qint 1))] := by
      simp
    have hrest1 : (meas.flatMap nestedMeasure).filter (fun kv => kv.1 ≠ "_id") =
        meas.flatMap nestedMeasure := by
      apply List.filter_eq_self.mpr
      intro kv hkv
      have hkey : kv.1 ∈ (meas.flatMap nestedMeasure).map Prod.fst :=
        List.mem_map_of_mem Prod.fst hkv
      rw [flatMap_nestedMeasure_keys] at hkey
      have : kv.1 ≠ "_id" := by
        intro h
        exact hdisj3 (by simp) (List.mem_append_left dims (h ▸ hkey))
      simpa using this
    have hrest2 : (dims.zip ((dims.map jsReplaceDot).map
        (fun d => JVal.str ("$_id." ++ d)))).filter (fun kv => kv.1 ≠ "_id") =
        dims.zip ((dims.map jsReplaceDot).map (fun d => JVal.str ("$_id." ++ d))) := by
      apply List.filter_eq_self.mpr
      intro kv hkv
      have hkey : kv.1 ∈ (dims.zip ((dims.map jsReplaceDot).map
          (fun d => JVal.str ("$_id." ++ d)))).map Prod.fst :=
        List.mem_map_of_mem Prod.fst hkv
      rw [hzkeys] at hkey
      have : kv.1 ≠ "_id" := by
        intro h
        exact hdisj3 (by simp) (List.mem_append_right meas (h ▸ hkey))
      simpa using this
    rw [hbase, hrest1, hrest2]
    simp only [List.length_append, List.length_cons, List.length_nil,
      flatMap_nestedMeasure_length, List.length_zip, List.length_map]
    omega

/-- C9 witness: the spec's scenario-3 cube — dimensions `State`,
`Color`, measure `Weight`. -/
theorem createCube_fieldCounts_witness :
    ∃ gb pb idb,
      createCube ["State", "Color"] ["Weight"] "dmv.cube" =
        [JVal.obj [("$group", JVal.obj gb)],
         JVal.obj [("$project", JVal.obj pb)],
         JVal.obj [("$out", JVal.str "dmv.cube")]] ∧
      gb.head? = some ("_id", JVal.obj idb) ∧
      idb.length = (["State", "Color"] : List String).length ∧
      (gb.filter (fun kv => kv.1 ≠ "_id")).length = 1 + 4 * (["Weight"] : List String).length ∧
      (pb.filter (fun kv => kv.1 ≠ "_id")).length =
        1 + (["Weight"] : List String).length + (["State", "Color"] : List String).length :=
  createCube_fieldCounts ["State", "Color"] ["Weight"] "dmv.cube"
    (by decide) (by decide) (by decide) (by decide) (by decide)

/-- A concrete heap holding the pipeline
`[{$group: {_id: null, c: {$sum: 1}}}]`: cell 3 is the pipeline array,
cell 2 the stage, cell 0 the group body, cell 1 the accumulator. -/
def demoHeap : Heap :=
  [HCell.obj [("_id", HVal.null), ("c", HVal.ref 1)],
   HCell.obj [("$sum", HVal.num (qint 1))],
   HCell.obj [("$group", HVal.ref 0)],
   HCell.arr [HVal.ref 2]]

/-- The tree `demoHeap`'s pipeline decodes to. -/
def demoJ : JVal :=
  JVal.arr [JVal.obj [("$group", JVal.obj
    [("_id", JVal.null), ("c", JVal.obj [("$sum", JVal.num (qint 1))])])]]

/-- C6 witness: on `demoHeap` the caller's pipeline decodes to the same
tree after `checkCompatibilityH` as before it. -/
theorem checkCompatibilityH_callerUnchanged_witness :
    decodeVal demoHeap 5 (HVal.ref 3) = some demoJ ∧
    decodeVal (checkCompatibilityH demoHeap (HVal.ref 3)).1 5 (HVal.ref 3) = some demoJ := by
  have h : decodeVal demoHeap 5 (HVal.ref 3) = some demoJ := by
    simp [decodeVal, decodeFields, decodeElems, demoHeap, demoJ]
  exact ⟨h, checkCompatibilityH_callerUnchanged demoHeap (HVal.ref 3) 5 demoJ h⟩
